import Mathlib

/- Verification development for the bikeshare analytics command-line program
(`bikeshare.py`).  The program loads a trip table for a chosen city, derives
month/weekday/hour columns from the parsed start times, filters by the chosen
month and day, and prints a sequence of aggregate reports.  Below, the pure
computational content of each routine is embedded as Lean definitions over an
explicit row type, and the properties of the natural-language specification are
proved or refuted against those definitions. -/

namespace Bikeshare

/-- Colour constant `YELLOW` from the source (used in warning lines). -/
def YELLOW : String := "\x1b[38;2;128;96;0m"

/-- Colour constant `ENDC` from the source (resets the colour). -/
def ENDC : String := "\x1b[0m"

/-- Embedding of the Python `str.lower()` method: lower-cases every
character. -/
def lowerS (s : String) : String := ⟨s.data.map Char.toLower⟩

/-- Helper for `titleS`: walks the character list carrying a flag that records
whether the previous character was alphabetic.  An alphabetic character that
follows a non-alphabetic one is upper-cased, any other alphabetic character is
lower-cased, and non-alphabetic characters pass through unchanged.  This is the
behaviour of the Python `str.title()` method on ASCII data. -/
def titleAux : Bool → List Char → List Char
  | _, [] => []
  | prev, c :: cs =>
      (if c.isAlpha then (if prev then c.toLower else c.toUpper) else c) :: titleAux c.isAlpha cs

/-- Embedding of the Python `str.title()` method. -/
def titleS (s : String) : String := ⟨titleAux false s.data⟩

/-- `get_filter_description` from the source: builds the status line
`City: ... | Month: ... | Day: ...` from the three selected filter values,
rendering `"all"` as `"All"` and any other value title-cased. -/
def get_filter_description (city month day : String) : String :=
  let city_part := "City: " ++ titleS city ++ " | "
  let month_part := "Month: " ++ (if month = "all" then "All" else titleS month)
  let day_part := "Day: " ++ (if day = "all" then "All" else titleS day)
  city_part ++ month_part ++ " | " ++ day_part

/-- The shape of the filter-description string as the specification words it:
a single concatenation `City: <Title> | Month: <Title-or-All> | Day:
<Title-or-All>`.  Written from the specification, to be compared with
`get_filter_description`, which is written from the source. -/
def filterDescriptionSpec (city month day : String) : String :=
  "City: " ++ titleS city ++ " | Month: " ++
    (if month = "all" then "All" else titleS month) ++ " | Day: " ++
    (if day = "all" then "All" else titleS day)

/-- One row of the trip table, after the loader has parsed `Start Time` and
derived the `month`, `day_of_week` and `hour` columns from it
(`df['month'] = df['Start Time'].dt.month`, etc.).  Station, gender and birth
year cells are nullable, which `Option` records; `Trip Duration` is a numeric
column, embedded as a rational. -/
structure Trip where
  month : Nat
  day_of_week : String
  hour : Nat
  startStation : Option String
  endStation : Option String
  tripDuration : ℚ
  userType : String
  gender : Option String
  birthYear : Option Int
deriving DecidableEq

/-- The fixed ordered list `months` used by `load_data` to translate a month
name into its 1-based number. -/
def monthsList : List String :=
  ["january", "february", "march", "april", "may", "june"]

/-- The filtering step of `load_data` (the two `if` blocks): if the month
filter is not `"all"`, keep the rows whose derived `month` equals the 1-based
index of the (lower-cased) month name in `monthsList`; if the day filter is
not `"all"`, keep the rows whose lower-cased `day_of_week` equals the
lower-cased day filter. -/
def filterData (rows : List Trip) (month day : String) : List Trip :=
  let df1 :=
    if month ≠ "all" then
      rows.filter (fun r => r.month == monthsList.indexOf (lowerS month) + 1)
    else rows
  if day ≠ "all" then
    df1.filter (fun r => lowerS r.day_of_week == lowerS day)
  else df1

/-- Outcome of the file-reading and parsing part of `load_data`: either the
parsed rows (with the derived columns already computed), or the
`FileNotFoundError` branch, or the catch-all `Exception` branch. -/
inductive ReadOutcome where
  | success (rows : List Trip)
  | fileNotFound (msg : String)
  | otherError (msg : String)
deriving DecidableEq

/-- `load_data` from the source: on a successful read it returns the filtered
table; both `except` branches print a message and return `None`, which
`Option.none` embeds. -/
def load_data (read : ReadOutcome) (month day : String) : Option (List Trip) :=
  match read with
  | .success rows => some (filterData rows month day)
  | .fileNotFound _ => none
  | .otherError _ => none

/-- The observable steps of one iteration of the `main` loop. -/
inductive Step where
  | header
  | rideStats
  | stationStats
  | durationStats
  | userStats
  | rawData
  | endOfSession
  | restartPrompt
deriving DecidableEq

/-- One iteration of the `while True` loop of `main`, as the sequence of steps
it performs after `load_data` returns: the report (header, four aggregators
and the raw-data view) runs only under `if df is not None`, and the
end-of-session message and restart prompt always follow. -/
def sessionSteps (df : Option (List Trip)) : List Step :=
  (match df with
   | some _ =>
      [Step.header, Step.rideStats, Step.stationStats, Step.durationStats,
       Step.userStats, Step.rawData]
   | none => []) ++ [Step.endOfSession, Step.restartPrompt]

/-- `argmaxFromFirst f x l` is the first element of `x :: l` attaining the
maximal value of `f`: a later element replaces the current best only when its
key is strictly greater.  This is the tie-breaking behaviour of the pandas
`Series.idxmax` method (and of `.value_counts().index[0]`): the first label
with the maximal value wins. -/
def argmaxFromFirst {α : Type} (f : α → Nat) (x : α) : List α → α
  | [] => x
  | y :: ys =>
      let m := argmaxFromFirst f y ys
      if f x < f m then m else x

/-- `argminFromFirst f x l` is the first element of `x :: l` attaining the
minimal value of `f` (the `Series.idxmin` tie-breaking behaviour). -/
def argminFromFirst {α : Type} (f : α → Nat) (x : α) : List α → α
  | [] => x
  | y :: ys =>
      let m := argminFromFirst f y ys
      if f m < f x then m else x

/-- `idxmaxFirst f l` is `none` on the empty list (pandas `idxmax` raises on
an empty series) and otherwise the first element attaining the maximum of
`f`. -/
def idxmaxFirst {α : Type} (f : α → Nat) : List α → Option α
  | [] => none
  | x :: xs => some (argmaxFromFirst f x xs)

/-- `idxminFirst f l`: dual of `idxmaxFirst`. -/
def idxminFirst {α : Type} (f : α → Nat) : List α → Option α
  | [] => none
  | x :: xs => some (argminFromFirst f x xs)

/-- The hour column of the table: `df['hour']`. -/
def hoursOf (rows : List Trip) : List Nat := rows.map (·.hour)

/-- The index of `df['hour'].value_counts().sort_index()`: the distinct hour
values that occur in the data, listed in ascending order.  Hours are the range
0 to 23, so the index is the filter of `List.range 24` to the hours with a
non-zero count. -/
def sortedHourIndex (hs : List Nat) : List Nat :=
  (List.range 24).filter (fun h => hs.count h != 0)

/-- `hourly_rides.idxmax()` of `display_ride_stats`: the hour with the largest
count; since the series was sorted by hour, a tie goes to the lowest hour. -/
def busiestHour (hs : List Nat) : Option Nat :=
  idxmaxFirst (fun h => hs.count h) (sortedHourIndex hs)

/-- `hourly_rides.idxmin()` of `display_ride_stats`. -/
def quietestHour (hs : List Nat) : Option Nat :=
  idxminFirst (fun h => hs.count h) (sortedHourIndex hs)

/-- The values `display_ride_stats` reports. -/
structure RideStats where
  totalRides : Nat
  busiest : Nat
  quietest : Nat
deriving DecidableEq

/-- `display_ride_stats`: the total ride count together with the busiest and
quietest hours.  The hour computations raise on an empty series, which the
`none` result embeds. -/
def display_ride_stats (rows : List Trip) : Option RideStats :=
  match busiestHour (hoursOf rows), quietestHour (hoursOf rows) with
  | some b, some q => some ⟨rows.length, b, q⟩
  | _, _ => none

/-- Boolean lexicographic comparison of character lists by code point: the
comparison Python applies to strings, and the one `numpy.sort` applies to an
object column of strings inside the pandas `mode` method. -/
def lexLt : List Char → List Char → Bool
  | _, [] => false
  | [], _ :: _ => true
  | a :: as, b :: bs => if a < b then true else if b < a then false else lexLt as bs

/-- Boolean lexicographic comparison of strings. -/
def strLt (s t : String) : Bool := lexLt s.data t.data

/-- Boolean comparison of integers. -/
def intLtB (a b : Int) : Bool := decide (a < b)

/-- `minFromFirst lt x l`: the least element of `x :: l` under the comparison
`lt` (the current best is replaced only by a strictly smaller later one). -/
def minFromFirst {α : Type} (lt : α → α → Bool) (x : α) : List α → α
  | [] => x
  | y :: ys =>
      let m := minFromFirst lt y ys
      if lt m x then m else x

/-- `maxFromFirst lt x l`: the greatest element of `x :: l` under `lt`. -/
def maxFromFirst {α : Type} (lt : α → α → Bool) (x : α) : List α → α
  | [] => x
  | y :: ys =>
      let m := maxFromFirst lt y ys
      if lt x m then m else x

/-- Embedding of `Series.mode()[0]`: the pandas `mode` method returns the set
of values attaining the maximal count, sorted ascending under `lt`, so its
first entry is the least such value.  `none` embeds the raising behaviour of
indexing into the empty result of `mode` on an empty series. -/
def seriesMode {α : Type} [DecidableEq α] (lt : α → α → Bool) (l : List α) : Option α :=
  match l.filter (fun v => l.all (fun w => l.count w ≤ l.count v)) with
  | [] => none
  | x :: xs => some (minFromFirst lt x xs)

/-- `df['Start Station'].dropna()`. -/
def startVals (rows : List Trip) : List String := rows.filterMap (·.startStation)

/-- `df['End Station'].dropna()`. -/
def endVals (rows : List Trip) : List String := rows.filterMap (·.endStation)

/-- The combined route series
`df['Start Station'].dropna() + ' to ' + df['End Station'].dropna()` after the
null entries produced by index alignment are dropped again by
`mode`/`value_counts`: a row contributes the string `"<start> to <end>"`
exactly when both of its station cells are non-null. -/
def routeVals (rows : List Trip) : List String :=
  rows.filterMap (fun r =>
    match r.startStation, r.endStation with
    | some s, some e => some (s ++ " to " ++ e)
    | _, _ => none)

/-- `start_station_counts.index[0]` of `display_station_stats`: the first
value of the start-station series attaining the maximal count
(`value_counts` lists its keys in order of first occurrence and sorts stably
by descending count, so the head is the first-encountered mode). -/
def popularStartStation (rows : List Trip) : Option String :=
  idxmaxFirst (fun v => (startVals rows).count v) (startVals rows)

/-- `end_station_counts.index[0]` of `display_station_stats`. -/
def popularEndStation (rows : List Trip) : Option String :=
  idxmaxFirst (fun v => (endVals rows).count v) (endVals rows)

/-- `route_series.mode()[0]` of `display_station_stats`. -/
def popularRoute (rows : List Trip) : Option String :=
  seriesMode strLt (routeVals rows)

/-- `display_station_stats`: the three popular-station reports; any of the
three raises on an empty underlying series, which `none` embeds. -/
def display_station_stats (rows : List Trip) : Option (String × String × String) :=
  match popularStartStation rows, popularEndStation rows, popularRoute rows with
  | some s, some e, some r => some (s, e, r)
  | _, _, _ => none

/-- `format_time` from the source.  `abs(int(seconds))` truncates the value
toward zero and takes the absolute value: for a rational `num / den` this is
`(num.tdiv den).natAbs`.  The result always carries all three fields. -/
def format_time (seconds : ℚ) : String :=
  let s0 : Nat := (Int.tdiv seconds.num (seconds.den : Int)).natAbs
  let hours := s0 / 3600
  let minutes := (s0 % 3600) / 60
  let secs := s0 % 60
  toString hours ++ "h " ++ toString minutes ++ "m " ++ toString secs ++ "s"

/-- The mean of the `Trip Duration` column, defined only on a non-empty
table: on an empty table pandas yields a non-numeric missing value whose
conversion inside `format_time` raises, which `none` embeds. -/
def meanDuration (l : List ℚ) : Option ℚ :=
  if l = [] then none else some (l.sum / (l.length : ℚ))

/-- The `Trip Duration` column. -/
def durationsOf (rows : List Trip) : List ℚ := rows.map (·.tripDuration)

/-- `display_trip_duration_stats`: formats the column sum and the column mean;
fails on an empty table because the mean is undefined there. -/
def display_trip_duration_stats (rows : List Trip) : Option (String × String) :=
  match meanDuration (durationsOf rows) with
  | some avg => some (format_time (durationsOf rows).sum, format_time avg)
  | none => none

/-- Helper for `uniques`: walk the list keeping the values not seen before,
with `seen` accumulating the values already emitted. -/
def uniquesAux {α : Type} [DecidableEq α] (seen : List α) : List α → List α
  | [] => []
  | x :: xs => if x ∈ seen then uniquesAux seen xs else x :: uniquesAux (x :: seen) xs

/-- The distinct values of a list in order of first occurrence (the key order
of a pandas hash-based `value_counts`). -/
def uniques {α : Type} [DecidableEq α] (l : List α) : List α := uniquesAux [] l

/-- Insert a keyed count into a list sorted by descending count, before the
first strictly smaller count, so that equal counts keep their existing
relative order. -/
def insertDesc {α : Type} (p : α × Nat) : List (α × Nat) → List (α × Nat)
  | [] => [p]
  | q :: qs => if q.2 ≤ p.2 then p :: q :: qs else q :: insertDesc p qs

/-- Embedding of `Series.value_counts()`: the distinct values in order of
first occurrence, paired with their counts and stably sorted by descending
count. -/
def value_counts {α : Type} [DecidableEq α] (l : List α) : List (α × Nat) :=
  ((uniques l).map (fun v => (v, l.count v))).foldr insertDesc []

/-- The trip table as the aggregators see it: the rows plus the schema facts
`'Gender' in df.columns` and `'Birth Year' in df.columns` (two of the three
source files carry these columns, the third does not). -/
structure TripTable where
  hasGender : Bool
  hasBirthYear : Bool
  rows : List Trip
deriving DecidableEq

/-- `df[df['User Type'] == 'Subscriber']`. -/
def subscriberRows (t : TripTable) : List Trip :=
  t.rows.filter (fun r => r.userType == "Subscriber")

/-- The exact line printed for a missing or empty gender breakdown. -/
def genderWarningLine : String :=
  YELLOW ++ "* Subscriber gender data missing/unavailable for your selection" ++ ENDC

/-- The exact line printed for a missing or empty birth-year breakdown. -/
def birthYearWarningLine : String :=
  YELLOW ++ "* Subscriber birth year data missing/unavailable for your selection" ++ ENDC

/-- One block of output of `display_user_stats`. -/
inductive UserSection where
  | userTypes (items : List (String × Nat × ℚ))
  | warning (line : String)
  | genderBreakdown (items : List (String × Nat × ℚ))
  | birthYears (earliest latest common : Int) (ages : Int × Int × Int)
deriving DecidableEq

/-- The user-type block of `display_user_stats`: counts and percentages of the
whole table per user type, in `value_counts` order. -/
def userTypesSection (t : TripTable) : UserSection :=
  UserSection.userTypes
    ((value_counts (t.rows.map (·.userType))).map
      (fun p => (p.1, p.2, (p.2 : ℚ) / (t.rows.length : ℚ) * 100)))

/-- The gender block of `display_user_stats`: only when the `Gender` column
exists, restrict to subscriber rows and count genders with
`value_counts(dropna=False)` (so a null gender is itself a category, displayed
as `Unknown`); when the column is absent, or the counts are empty because no
subscriber rows remain, print the warning line instead. -/
def genderSection (t : TripTable) : UserSection :=
  if t.hasGender then
    let sub := subscriberRows t
    let gender_counts := value_counts (sub.map (·.gender))
    if gender_counts.isEmpty then UserSection.warning genderWarningLine
    else
      UserSection.genderBreakdown
        (gender_counts.map (fun p =>
          (p.1.getD "Unknown", p.2, (p.2 : ℚ) / (sub.length : ℚ) * 100)))
  else UserSection.warning genderWarningLine

/-- The birth-year block of `display_user_stats`: only when the `Birth Year`
column exists, restrict to subscriber rows, drop null years, and report the
earliest, latest and most common year with the current ages; when the column
is absent or no values remain, print the warning line instead. -/
def birthYearSection (currentYear : Int) (t : TripTable) : UserSection :=
  if t.hasBirthYear then
    match (subscriberRows t).filterMap (·.birthYear) with
    | [] => UserSection.warning birthYearWarningLine
    | x :: xs =>
        let earliest := minFromFirst intLtB x xs
        let latest := maxFromFirst intLtB x xs
        let common := (seriesMode intLtB (x :: xs)).getD x
        UserSection.birthYears earliest latest common
          (currentYear - earliest, currentYear - latest, currentYear - common)
  else UserSection.warning birthYearWarningLine

/-- `display_user_stats`: the three blocks in the order the source prints
them. -/
def display_user_stats (currentYear : Int) (t : TripTable) : List UserSection :=
  [userTypesSection t, genderSection t, birthYearSection currentYear t]

/-- `original_columns` of `display_raw_data`: every column of the table except
the three derived ones. -/
def original_columns (cols : List String) : List String :=
  cols.filter (fun c => !(["month", "day_of_week", "hour"].contains c))

/-- The pages of the raw-data loop: chunks of five rows in table order, taken
from the front until the table is exhausted. -/
def chunks5 {α : Type} : List α → List (List α)
  | [] => []
  | x :: xs => (x :: xs).take 5 :: chunks5 ((x :: xs).drop 5)
termination_by l => l.length
decreasing_by
  simp only [List.length_drop, List.length_cons]
  omega

/-- The pagination loop of `display_raw_data` after the user has asked to see
the raw data: show the next five rows; if rows remain, consume the next yes/no
answer and continue exactly when it is `true`.  `answers` lists the replies
the user gives to the continuation prompt. -/
def paginate {α : Type} : List α → List Bool → List (List α)
  | [], _ => []
  | x :: xs, answers =>
      if 5 < (x :: xs).length then
        match answers with
        | [] => [(x :: xs).take 5]
        | a :: rest =>
            if a then (x :: xs).take 5 :: paginate ((x :: xs).drop 5) rest
            else [(x :: xs).take 5]
      else [(x :: xs).take 5]
termination_by l _ => l.length
decreasing_by
  simp only [List.length_drop, List.length_cons]
  omega

/-- A trip row with a given start hour and no other distinguishing data, used
to realise a prescribed hourly histogram. -/
def rideAt (h : Nat) : Trip :=
  ⟨1, "Monday", h, none, none, 0, "Subscriber", none, none⟩

/-- A table whose hourly counts are 5 rides at hour 0, 120 at hour 8, 150 at
hour 17 and 2 at hour 23. -/
def exampleRides : List Trip :=
  List.replicate 5 (rideAt 0) ++ List.replicate 120 (rideAt 8) ++
    List.replicate 150 (rideAt 17) ++ List.replicate 2 (rideAt 23)

/-- Two rows whose routes are distinct and therefore tie at count one; the
route first encountered in row order is `B to Y`, while `A to X` is the
lexicographically smaller string. -/
def tieRows : List Trip :=
  [⟨1, "Monday", 0, some "B", some "Y", 10, "Subscriber", none, none⟩,
   ⟨1, "Monday", 1, some "A", some "X", 20, "Customer", none, none⟩]

/-- A single-row table with in-range fields, used to instantiate hypotheses
about non-empty tables. -/
def oneRide : List Trip :=
  [⟨1, "Monday", 9, some "S", some "E", 60, "Subscriber", some "Male", some 1990⟩]

theorem argmaxFromFirst_mem {α : Type} (f : α → Nat) (x : α) (l : List α) :
    argmaxFromFirst f x l ∈ x :: l := by
  induction l generalizing x with
  | nil => simp [argmaxFromFirst]
  | cons y ys ih =>
    simp only [argmaxFromFirst]
    split
    · exact List.mem_cons_of_mem x (ih y)
    · exact List.mem_cons_self x _

theorem argmaxFromFirst_le {α : Type} (f : α → Nat) (x : α) (l : List α) :
    ∀ v ∈ x :: l, f v ≤ f (argmaxFromFirst f x l) := by
  induction l generalizing x with
  | nil =>
    intro v hv
    have hx : v = x := by simpa using hv
    subst hx
    simp [argmaxFromFirst]
  | cons y ys ih =>
    intro v hv
    simp only [argmaxFromFirst]
    split
    · rcases List.mem_cons.mp hv with rfl | hv'
      · next h => exact le_of_lt h
      · exact ih y v hv'
    · rcases List.mem_cons.mp hv with rfl | hv'
      · exact le_refl _
      · next h => exact le_trans (ih y v hv') (Nat.le_of_not_lt h)

theorem argmaxFromFirst_indexOf {α : Type} [DecidableEq α] (f : α → Nat) (x : α) (l : List α) :
    ∀ v ∈ x :: l, f v = f (argmaxFromFirst f x l) →
      (x :: l).indexOf (argmaxFromFirst f x l) ≤ (x :: l).indexOf v := by
  induction l generalizing x with
  | nil =>
    intro v hv hfv
    have hx : v = x := by simpa using hv
    subst hx
    simp [argmaxFromFirst]
  | cons y ys ih =>
    intro v hv hfv
    simp only [argmaxFromFirst] at hfv ⊢
    by_cases h : f x < f (argmaxFromFirst f y ys)
    · rw [if_pos h] at hfv ⊢
      have hmx : argmaxFromFirst f y ys ≠ x := by
        intro e; rw [e] at h; exact lt_irrefl _ h
      have hvx : v ≠ x := by
        intro e; rw [e] at hfv; rw [hfv] at h; exact lt_irrefl _ h
      have hv' : v ∈ y :: ys := by
        rcases List.mem_cons.mp hv with e | h'
        · exact absurd e hvx
        · exact h'
      rw [List.indexOf_cons_ne _ (Ne.symm hmx), List.indexOf_cons_ne _ (Ne.symm hvx)]
      exact Nat.succ_le_succ (ih y v hv' hfv)
    · rw [if_neg h] at hfv ⊢
      rw [List.indexOf_cons_self]
      exact Nat.zero_le _

theorem argmaxFromFirst_sorted_le {α : Type} [LinearOrder α] (f : α → Nat) (x : α)
    (l : List α) (hs : (x :: l).Pairwise (· < ·)) :
    ∀ v ∈ x :: l, f v = f (argmaxFromFirst f x l) → argmaxFromFirst f x l ≤ v := by
  induction l generalizing x with
  | nil =>
    intro v hv hfv
    have hx : v = x := by simpa using hv
    subst hx
    simp [argmaxFromFirst]
  | cons y ys ih =>
    intro v hv hfv
    have hx : ∀ z ∈ y :: ys, x < z := (List.pairwise_cons.mp hs).1
    have hs' : (y :: ys).Pairwise (· < ·) := (List.pairwise_cons.mp hs).2
    simp only [argmaxFromFirst] at hfv ⊢
    by_cases h : f x < f (argmaxFromFirst f y ys)
    · rw [if_pos h] at hfv ⊢
      have hvx : v ≠ x := by
        intro e; rw [e] at hfv; rw [hfv] at h; exact lt_irrefl _ h
      have hv' : v ∈ y :: ys := by
        rcases List.mem_cons.mp hv with e | h'
        · exact absurd e hvx
        · exact h'
      exact ih y hs' v hv' hfv
    · rw [if_neg h] at hfv ⊢
      rcases List.mem_cons.mp hv with e | h'
      · exact le_of_eq e.symm
      · exact le_of_lt (hx v h')

theorem argminFromFirst_mem {α : Type} (f : α → Nat) (x : α) (l : List α) :
    argminFromFirst f x l ∈ x :: l := by
  induction l generalizing x with
  | nil => simp [argminFromFirst]
  | cons y ys ih =>
    simp only [argminFromFirst]
    split
    · exact List.mem_cons_of_mem x (ih y)
    · exact List.mem_cons_self x _

theorem argminFromFirst_le {α : Type} (f : α → Nat) (x : α) (l : List α) :
    ∀ v ∈ x :: l, f (argminFromFirst f x l) ≤ f v := by
  induction l generalizing x with
  | nil =>
    intro v hv
    have hx : v = x := by simpa using hv
    subst hx
    simp [argminFromFirst]
  | cons y ys ih =>
    intro v hv
    simp only [argminFromFirst]
    split
    · rcases List.mem_cons.mp hv with rfl | hv'
      · next h => exact le_of_lt h
      · exact ih y v hv'
    · rcases List.mem_cons.mp hv with rfl | hv'
      · exact le_refl _
      · next h => exact le_trans (Nat.le_of_not_lt h) (ih y v hv')

theorem argminFromFirst_sorted_le {α : Type} [LinearOrder α] (f : α → Nat) (x : α)
    (l : List α) (hs : (x :: l).Pairwise (· < ·)) :
    ∀ v ∈ x :: l, f v = f (argminFromFirst f x l) → argminFromFirst f x l ≤ v := by
  induction l generalizing x with
  | nil =>
    intro v hv hfv
    have hx : v = x := by simpa using hv
    subst hx
    simp [argminFromFirst]
  | cons y ys ih =>
    intro v hv hfv
    have hx : ∀ z ∈ y :: ys, x < z := (List.pairwise_cons.mp hs).1
    have hs' : (y :: ys).Pairwise (· < ·) := (List.pairwise_cons.mp hs).2
    simp only [argminFromFirst] at hfv ⊢
    by_cases h : f (argminFromFirst f y ys) < f x
    · rw [if_pos h] at hfv ⊢
      have hvx : v ≠ x := by
        intro e; rw [e] at hfv; rw [hfv] at h; exact lt_irrefl _ h
      have hv' : v ∈ y :: ys := by
        rcases List.mem_cons.mp hv with e | h'
        · exact absurd e hvx
        · exact h'
      exact ih y hs' v hv' hfv
    · rw [if_neg h] at hfv ⊢
      rcases List.mem_cons.mp hv with e | h'
      · exact le_of_eq e.symm
      · exact le_of_lt (hx v h')

theorem idxmaxFirst_isSome {α : Type} (f : α → Nat) (l : List α) :
    (idxmaxFirst f l).isSome = true ↔ l ≠ [] := by
  cases l <;> simp [idxmaxFirst]

theorem idxminFirst_isSome {α : Type} (f : α → Nat) (l : List α) :
    (idxminFirst f l).isSome = true ↔ l ≠ [] := by
  cases l <;> simp [idxminFirst]

theorem lexLt_iff (l₁ l₂ : List Char) : lexLt l₁ l₂ = true ↔ l₁ < l₂ := by
  induction l₁ generalizing l₂ with
  | nil =>
    cases l₂ with
    | nil =>
      refine iff_of_false ?_ (fun h => nomatch h)
      simp [lexLt]
    | cons b bs =>
      refine iff_of_true ?_ (List.Lex.nil)
      simp [lexLt]
  | cons a as ih =>
    cases l₂ with
    | nil =>
      refine iff_of_false ?_ (fun h => nomatch h)
      simp [lexLt]
    | cons b bs =>
      simp only [lexLt]
      by_cases hab : a < b
      · rw [if_pos hab]
        exact iff_of_true rfl (List.Lex.rel hab)
      · rw [if_neg hab]
        by_cases hba : b < a
        · rw [if_pos hba]
          refine iff_of_false (by simp) ?_
          intro h
          cases h with
          | cons _ => exact lt_irrefl _ hba
          | rel h' => exact hab h'
        · rw [if_neg hba]
          have heq : a = b := le_antisymm (le_of_not_lt hba) (le_of_not_lt hab)
          subst heq
          rw [ih bs]
          constructor
          · intro h
            exact List.Lex.cons h
          · intro h
            cases h with
            | cons h' => exact h'
            | rel h' => exact absurd h' (lt_irrefl a)

theorem strLt_iff (s t : String) : strLt s t = true ↔ s < t := by
  rw [strLt, lexLt_iff]
  exact (String.lt_iff_toList_lt).symm

theorem intLtB_iff (a b : Int) : intLtB a b = true ↔ a < b := by
  simp [intLtB]

theorem minFromFirst_mem {α : Type} (lt : α → α → Bool) (x : α) (l : List α) :
    minFromFirst lt x l ∈ x :: l := by
  induction l generalizing x with
  | nil => simp [minFromFirst]
  | cons y ys ih =>
    simp only [minFromFirst]
    split
    · exact List.mem_cons_of_mem x (ih y)
    · exact List.mem_cons_self x _

theorem minFromFirst_le {α : Type} [LinearOrder α] (lt : α → α → Bool)
    (hlt : ∀ a b, lt a b = true ↔ a < b) (x : α) (l : List α) :
    ∀ v ∈ x :: l, minFromFirst lt x l ≤ v := by
  induction l generalizing x with
  | nil =>
    intro v hv
    have hx : v = x := by simpa using hv
    subst hx
    simp [minFromFirst]
  | cons y ys ih =>
    intro v hv
    simp only [minFromFirst]
    split
    · rcases List.mem_cons.mp hv with rfl | hv'
      · next h => exact le_of_lt ((hlt _ _).mp h)
      · exact ih y v hv'
    · rcases List.mem_cons.mp hv with rfl | hv'
      · exact le_refl _
      · next h =>
        have hxm : x ≤ minFromFirst lt y ys :=
          le_of_not_lt (fun hc => h ((hlt _ _).mpr hc))
        exact le_trans hxm (ih y v hv')

theorem seriesMode_spec {α : Type} [DecidableEq α] [LinearOrder α] {lt : α → α → Bool}
    (hlt : ∀ a b, lt a b = true ↔ a < b) {l : List α} {m : α}
    (h : seriesMode lt l = some m) :
    m ∈ l ∧ (∀ w ∈ l, l.count w ≤ l.count m) ∧
      (∀ v ∈ l, l.count v = l.count m → m ≤ v) := by
  rcases hfl : l.filter (fun v => l.all (fun w => l.count w ≤ l.count v)) with _ | ⟨x, xs⟩
  · rw [seriesMode, hfl] at h
    cases h
  · rw [seriesMode, hfl] at h
    have hm : m = minFromFirst lt x xs := by
      injection h with h
      exact h.symm
    have hmem : m ∈ x :: xs := hm ▸ minFromFirst_mem lt x xs
    have hmf : m ∈ l.filter (fun v => l.all (fun w => l.count w ≤ l.count v)) := by
      rw [hfl]; exact hmem
    have hml : m ∈ l := (List.mem_filter.mp hmf).1
    have hmax : ∀ w ∈ l, l.count w ≤ l.count m := by
      have := (List.mem_filter.mp hmf).2
      simpa [List.all_eq_true] using this
    refine ⟨hml, hmax, ?_⟩
    intro v hv hcv
    have hvmax : ∀ w ∈ l, l.count w ≤ l.count v := fun w hw => hcv ▸ hmax w hw
    have hvf : v ∈ l.filter (fun u => l.all (fun w => l.count w ≤ l.count u)) :=
      List.mem_filter.mpr ⟨hv, by simpa [List.all_eq_true] using hvmax⟩
    rw [hfl] at hvf
    exact hm ▸ minFromFirst_le lt hlt x xs v hvf

theorem seriesMode_isSome {α : Type} [DecidableEq α] (lt : α → α → Bool) (l : List α) :
    (seriesMode lt l).isSome = true ↔ l ≠ [] := by
  constructor
  · intro h hl
    subst hl
    simp [seriesMode] at h
  · intro hl
    rcases l with _ | ⟨z, zs⟩
    · exact absurd rfl hl
    · set L := z :: zs with hL
      have hb : argmaxFromFirst (fun v => L.count v) z zs ∈
          L.filter (fun v => L.all (fun w => L.count w ≤ L.count v)) := by
        refine List.mem_filter.mpr ⟨argmaxFromFirst_mem _ z zs, ?_⟩
        rw [List.all_eq_true]
        intro w hw
        simpa using argmaxFromFirst_le (fun v => L.count v) z zs w hw
      rcases hfl : L.filter (fun v => L.all (fun w => L.count w ≤ L.count v)) with _ | ⟨x, xs⟩
      · rw [hfl] at hb
        cases hb
      · rw [seriesMode, hfl]
        rfl

theorem uniquesAux_sub {α : Type} [DecidableEq α] (l : List α) :
    ∀ (seen : List α), ∀ v ∈ uniquesAux seen l, v ∈ l := by
  induction l with
  | nil => intro seen v hv; simp [uniquesAux] at hv
  | cons x xs ih =>
    intro seen v hv
    simp only [uniquesAux] at hv
    by_cases hx : x ∈ seen
    · rw [if_pos hx] at hv
      exact List.mem_cons_of_mem x (ih seen v hv)
    · rw [if_neg hx] at hv
      rcases List.mem_cons.mp hv with rfl | hv'
      · exact List.mem_cons_self _ _
      · exact List.mem_cons_of_mem x (ih (x :: seen) v hv')

theorem uniques_sub {α : Type} [DecidableEq α] (l : List α) :
    ∀ v ∈ uniques l, v ∈ l :=
  uniquesAux_sub l []

theorem insertDesc_ne_nil {α : Type} (p : α × Nat) (L : List (α × Nat)) :
    insertDesc p L ≠ [] := by
  cases L with
  | nil => simp [insertDesc]
  | cons q qs =>
    simp only [insertDesc]
    split <;> simp

theorem value_counts_eq_nil {α : Type} [DecidableEq α] (l : List α) :
    value_counts l = [] ↔ l = [] := by
  cases l with
  | nil => simp [value_counts, uniques, uniquesAux]
  | cons x xs =>
    constructor
    · intro h
      rw [value_counts, uniques] at h
      simp only [uniquesAux, List.not_mem_nil, if_false, List.map_cons,
        List.foldr_cons] at h
      exact absurd h (insertDesc_ne_nil _ _)
    · intro h
      cases h

theorem mem_sortedHourIndex (hs : List Nat) (h : Nat) :
    h ∈ sortedHourIndex hs ↔ h < 24 ∧ h ∈ hs := by
  simp [sortedHourIndex, List.mem_filter, List.mem_range, List.count_eq_zero]

theorem sortedHourIndex_pairwise (hs : List Nat) :
    (sortedHourIndex hs).Pairwise (· < ·) :=
  (List.pairwise_lt_range 24).filter _

theorem ride_stats_core (rows : List Trip) (hne : rows ≠ [])
    (hh : ∀ r ∈ rows, r.hour < 24) :
    ∃ b q, busiestHour (hoursOf rows) = some b ∧ quietestHour (hoursOf rows) = some q ∧
      b ∈ hoursOf rows ∧ q ∈ hoursOf rows ∧
      (∀ h ∈ hoursOf rows, (hoursOf rows).count h ≤ (hoursOf rows).count b) ∧
      (∀ h ∈ hoursOf rows, (hoursOf rows).count q ≤ (hoursOf rows).count h) ∧
      (∀ h ∈ hoursOf rows, (hoursOf rows).count h = (hoursOf rows).count b → b ≤ h) ∧
      (∀ h ∈ hoursOf rows, (hoursOf rows).count h = (hoursOf rows).count q → q ≤ h) := by
  set hs := hoursOf rows with hhs
  have hmemhs : ∀ h ∈ hs, h < 24 := by
    intro h hm
    rcases List.mem_map.mp hm with ⟨r, hr, rfl⟩
    exact hh r hr
  have hne' : hs ≠ [] := by
    rcases rows with _ | ⟨r, rs⟩
    · exact absurd rfl hne
    · simp [hhs, hoursOf]
  have hidx : ∀ h, h ∈ sortedHourIndex hs ↔ h ∈ hs := by
    intro h
    rw [mem_sortedHourIndex]
    exact ⟨fun a => a.2, fun a => ⟨hmemhs h a, a⟩⟩
  have hidxne : sortedHourIndex hs ≠ [] := by
    rcases hs with _ | ⟨h0, hrest⟩
    · exact absurd rfl hne'
    · exact List.ne_nil_of_mem ((hidx h0).mpr (List.mem_cons_self _ _))
  rcases hsi : sortedHourIndex hs with _ | ⟨x, xs⟩
  · exact absurd hsi hidxne
  · have hpw : (x :: xs).Pairwise (· < ·) := hsi ▸ sortedHourIndex_pairwise hs
    refine ⟨argmaxFromFirst (fun h => hs.count h) x xs,
            argminFromFirst (fun h => hs.count h) x xs,
            by rw [busiestHour, hsi]; rfl,
            by rw [quietestHour, hsi]; rfl, ?_, ?_, ?_, ?_, ?_, ?_⟩
    · exact (hidx _).mp (hsi ▸ argmaxFromFirst_mem _ x xs)
    · exact (hidx _).mp (hsi ▸ argminFromFirst_mem _ x xs)
    · intro h hm
      exact argmaxFromFirst_le (fun h => hs.count h) x xs h (hsi ▸ (hidx h).mpr hm)
    · intro h hm
      exact argminFromFirst_le (fun h => hs.count h) x xs h (hsi ▸ (hidx h).mpr hm)
    · intro h hm he
      exact argmaxFromFirst_sorted_le (fun h => hs.count h) x xs hpw h
        (hsi ▸ (hidx h).mpr hm) he
    · intro h hm he
      exact argminFromFirst_sorted_le (fun h => hs.count h) x xs hpw h
        (hsi ▸ (hidx h).mpr hm) he

theorem chunks5_flatten {α : Type} (l : List α) : (chunks5 l).flatten = l := by
  induction l using chunks5.induct with
  | case1 => simp [chunks5]
  | case2 x xs ih =>
    rw [chunks5]
    simp only [List.flatten_cons, ih, List.take_append_drop]

theorem chunks5_getD {α : Type} (l : List α) :
    ∀ k : Nat, (chunks5 l).getD k [] = (l.drop (5 * k)).take 5 := by
  induction l using chunks5.induct with
  | case1 => intro k; simp [chunks5]
  | case2 x xs ih =>
    intro k
    match k with
    | 0 => rw [chunks5]; simp
    | k + 1 =>
      rw [chunks5]
      simp only [List.getD_cons_succ]
      rw [ih k, List.drop_drop]
      rw [show 5 + 5 * k = 5 * (k + 1) by omega]

theorem chunks5_pages {α : Type} (l : List α) :
    ∀ page ∈ chunks5 l, page ≠ [] ∧ page.length ≤ 5 := by
  induction l using chunks5.induct with
  | case1 => intro p hp; simp [chunks5] at hp
  | case2 x xs ih =>
    intro p hp
    rw [chunks5] at hp
    rcases List.mem_cons.mp hp with rfl | hp'
    · refine ⟨by simp, ?_⟩
      rw [List.length_take]
      omega
    · exact ih p hp'

theorem paginate_replicate_true {α : Type} (l : List α) :
    ∀ n, l.length ≤ n → paginate l (List.replicate n true) = chunks5 l := by
  induction l using chunks5.induct with
  | case1 => intro n _; simp [paginate, chunks5]
  | case2 x xs ih =>
    intro n hn
    rcases n with _ | m
    · simp at hn
    · rw [chunks5]
      simp only [List.replicate_succ]
      rw [paginate.eq_3]
      by_cases h5 : 5 < (x :: xs).length
      · rw [if_pos h5]
        have hm : ((x :: xs).drop 5).length ≤ m := by
          rw [List.length_drop]
          simp only [List.length_cons] at hn h5 ⊢
          omega
        simp only [if_true]
        rw [ih m hm]
      · rw [if_neg h5]
        have hdrop : (x :: xs).drop 5 = [] := by
          apply List.eq_nil_of_length_eq_zero
          rw [List.length_drop]
          simp only [List.length_cons] at h5 ⊢
          omega
        rw [hdrop, chunks5]
theorem paginate_false {α : Type} (x : α) (xs : List α) (answers : List Bool) :
    paginate (x :: xs) (false :: answers) = [(x :: xs).take 5] := by
  rw [paginate.eq_3]
  by_cases h5 : 5 < (x :: xs).length
  · rw [if_pos h5]
    simp
  · rw [if_neg h5]

theorem routeVals_mem (rows : List Trip) (v : String) :
    v ∈ routeVals rows ↔
      ∃ r ∈ rows, ∃ s e, r.startStation = some s ∧ r.endStation = some e ∧
        v = s ++ " to " ++ e := by
  simp only [routeVals, List.mem_filterMap]
  constructor
  · rintro ⟨r, hr, hm⟩
    rcases hss : r.startStation with _ | s
    · rw [hss] at hm
      simp at hm
    · rcases hes : r.endStation with _ | e
      · rw [hss, hes] at hm
        simp at hm
      · rw [hss, hes] at hm
        simp only [Option.some.injEq] at hm
        exact ⟨r, hr, s, e, hss, hes, hm.symm⟩
  · rintro ⟨r, hr, s, e, hss, hes, rfl⟩
    refine ⟨r, hr, ?_⟩
    rw [hss, hes]

theorem filterData_eq_filter (rows : List Trip) (month day : String) :
    filterData rows month day =
      rows.filter (fun r =>
        (month == "all" || r.month == monthsList.indexOf (lowerS month) + 1) &&
        (day == "all" || lowerS r.day_of_week == lowerS day)) := by
  by_cases hm : month = "all"
  · by_cases hd : day = "all"
    · subst hm; subst hd
      simp [filterData]
    · have hbd : (day == "all") = false := beq_eq_false_iff_ne.mpr hd
      subst hm
      simp [filterData, hd, hbd]
  · have hbm : (month == "all") = false := beq_eq_false_iff_ne.mpr hm
    by_cases hd : day = "all"
    · subst hd
      simp [filterData, hm, hbm]
    · have hbd : (day == "all") = false := beq_eq_false_iff_ne.mpr hd
      simp only [filterData, hm, hd, hbm, hbd, ne_eq, not_false_eq_true, if_true,
        Bool.false_or, List.filter_filter]
      refine List.filter_congr ?_
      intro a _
      rw [Bool.and_comm]

/-- C1: the filtering step of the loader retains exactly the rows whose
derived month number equals the 1-based index of the month name in the fixed
six-name list and whose derived weekday name case-insensitively equals the
day filter, with `"all"` acting as a true predicate on its dimension; in
particular filtering with (`"all"`, `"all"`) returns the table unchanged, and
`"all"` on a single dimension leaves that dimension unfiltered. -/
theorem load_data_filtering (rows : List Trip) (month day : String) :
    filterData rows month day =
      rows.filter (fun r =>
        (month == "all" || r.month == monthsList.indexOf (lowerS month) + 1) &&
        (day == "all" || lowerS r.day_of_week == lowerS day))
    ∧ filterData rows "all" "all" = rows
    ∧ filterData rows "all" day =
        rows.filter (fun r => day == "all" || lowerS r.day_of_week == lowerS day)
    ∧ filterData rows month "all" =
        rows.filter (fun r =>
          month == "all" || r.month == monthsList.indexOf (lowerS month) + 1) := by
  refine ⟨filterData_eq_filter rows month day, by simp [filterData], ?_, ?_⟩
  · rw [filterData_eq_filter]
    refine List.filter_congr ?_
    intro a _
    simp
  · rw [filterData_eq_filter]
    refine List.filter_congr ?_
    intro a _
    simp

/-- C2: on a non-empty table the ride-statistics aggregator reports the hour
whose group has the maximum row count as busiest and the hour whose group has
the minimum row count as quietest, and any tie on the count is resolved in
favour of the lowest hour number. -/
theorem ride_stats_extremes (rows : List Trip) (hne : rows ≠ [])
    (hh : ∀ r ∈ rows, r.hour < 24) :
    ∃ s : RideStats, display_ride_stats rows = some s
      ∧ s.totalRides = rows.length
      ∧ s.busiest ∈ hoursOf rows ∧ s.quietest ∈ hoursOf rows
      ∧ (∀ h ∈ hoursOf rows, (hoursOf rows).count h ≤ (hoursOf rows).count s.busiest)
      ∧ (∀ h ∈ hoursOf rows, (hoursOf rows).count s.quietest ≤ (hoursOf rows).count h)
      ∧ (∀ h ∈ hoursOf rows,
          (hoursOf rows).count h = (hoursOf rows).count s.busiest → s.busiest ≤ h)
      ∧ (∀ h ∈ hoursOf rows,
          (hoursOf rows).count h = (hoursOf rows).count s.quietest → s.quietest ≤ h) := by
  obtain ⟨b, q, hb, hq, hbm, hqm, hble, hqle, hbtie, hqtie⟩ := ride_stats_core rows hne hh
  refine ⟨⟨rows.length, b, q⟩, ?_, rfl, hbm, hqm, hble, hqle, hbtie, hqtie⟩
  rw [display_ride_stats, hb, hq]

set_option maxRecDepth 100000 in
/-- C2 witness: the table `exampleRides` realises the hourly histogram
5 rides at hour 0, 120 at hour 8, 150 at hour 17 and 2 at hour 23; the
aggregator reports busiest hour 17 and quietest hour 23 on it, and the
general theorem applies to it. -/
theorem ride_stats_extremes_witness :
    display_ride_stats exampleRides = some ⟨277, 17, 23⟩
    ∧ (∃ s : RideStats, display_ride_stats exampleRides = some s
      ∧ s.totalRides = exampleRides.length
      ∧ s.busiest ∈ hoursOf exampleRides ∧ s.quietest ∈ hoursOf exampleRides
      ∧ (∀ h ∈ hoursOf exampleRides,
          (hoursOf exampleRides).count h ≤ (hoursOf exampleRides).count s.busiest)
      ∧ (∀ h ∈ hoursOf exampleRides,
          (hoursOf exampleRides).count s.quietest ≤ (hoursOf exampleRides).count h)
      ∧ (∀ h ∈ hoursOf exampleRides,
          (hoursOf exampleRides).count h = (hoursOf exampleRides).count s.busiest →
            s.busiest ≤ h)
      ∧ (∀ h ∈ hoursOf exampleRides,
          (hoursOf exampleRides).count h = (hoursOf exampleRides).count s.quietest →
            s.quietest ≤ h)) :=
  ⟨by decide, ride_stats_extremes exampleRides (by decide) (by decide)⟩

theorem idxmaxFirst_spec {α : Type} [DecidableEq α] (l : List α) (hne : l ≠ []) :
    ∃ m, idxmaxFirst (fun v => l.count v) l = some m ∧ m ∈ l ∧
      (∀ v ∈ l, l.count v ≤ l.count m) ∧
      (∀ v ∈ l, l.count v = l.count m → l.indexOf m ≤ l.indexOf v) := by
  rcases l with _ | ⟨x, xs⟩
  · exact absurd rfl hne
  · exact ⟨argmaxFromFirst (fun v => (x :: xs).count v) x xs, rfl,
      argmaxFromFirst_mem _ x xs,
      fun v hv => argmaxFromFirst_le (fun v => (x :: xs).count v) x xs v hv,
      fun v hv he => argmaxFromFirst_indexOf (fun v => (x :: xs).count v) x xs v hv he⟩

/-- C3 counterexample: on the table `tieRows` the two routes each occur once;
the route first encountered in row order is `B to Y`, yet the aggregator
reports `A to X`, the lexicographically smaller string, so the
first-encountered tie-break asserted for the route mode fails on the code. -/
theorem station_route_tiebreak_cex :
    popularRoute tieRows = some "A to X"
    ∧ routeVals tieRows = ["B to Y", "A to X"]
    ∧ (routeVals tieRows).count "B to Y" = (routeVals tieRows).count "A to X"
    ∧ (routeVals tieRows).indexOf "B to Y" < (routeVals tieRows).indexOf "A to X" := by
  decide

/-- C3 (amended): over the rows with both stations non-null, the most popular
route is a mode of the row-wise strings `<start> to <end>` (rows with either
side null are excluded), but its ties are broken in favour of the
lexicographically smallest route string, because the library mode returns its
result sorted; the first-encountered tie-break does hold for the most popular
start station and the most popular end station, each computed over the
non-null values of its own column. -/
theorem station_stats_modes (rows : List Trip)
    (hboth : ∃ r ∈ rows, r.startStation ≠ none ∧ r.endStation ≠ none) :
    ∃ s e rt, popularStartStation rows = some s ∧ popularEndStation rows = some e ∧
      popularRoute rows = some rt
      ∧ (∀ v, v ∈ routeVals rows ↔ ∃ r ∈ rows, ∃ a b, r.startStation = some a ∧
            r.endStation = some b ∧ v = a ++ " to " ++ b)
      ∧ s ∈ startVals rows
      ∧ (∀ v ∈ startVals rows, (startVals rows).count v ≤ (startVals rows).count s)
      ∧ (∀ v ∈ startVals rows, (startVals rows).count v = (startVals rows).count s →
            (startVals rows).indexOf s ≤ (startVals rows).indexOf v)
      ∧ e ∈ endVals rows
      ∧ (∀ v ∈ endVals rows, (endVals rows).count v ≤ (endVals rows).count e)
      ∧ (∀ v ∈ endVals rows, (endVals rows).count v = (endVals rows).count e →
            (endVals rows).indexOf e ≤ (endVals rows).indexOf v)
      ∧ rt ∈ routeVals rows
      ∧ (∀ v ∈ routeVals rows, (routeVals rows).count v ≤ (routeVals rows).count rt)
      ∧ (∀ v ∈ routeVals rows,
            (routeVals rows).count v = (routeVals rows).count rt → rt ≤ v) := by
  obtain ⟨r, hr, hsn, hen⟩ := hboth
  rcases hsa : r.startStation with _ | a
  · exact absurd hsa hsn
  rcases hea : r.endStation with _ | b
  · exact absurd hea hen
  have hsv : a ∈ startVals rows := List.mem_filterMap.mpr ⟨r, hr, hsa⟩
  have hev : b ∈ endVals rows := List.mem_filterMap.mpr ⟨r, hr, hea⟩
  have hrv : (a ++ " to " ++ b) ∈ routeVals rows :=
    (routeVals_mem rows _).mpr ⟨r, hr, a, b, hsa, hea, rfl⟩
  obtain ⟨s, hs1, hs2, hs3, hs4⟩ :=
    idxmaxFirst_spec (startVals rows) (List.ne_nil_of_mem hsv)
  obtain ⟨e, he1, he2, he3, he4⟩ :=
    idxmaxFirst_spec (endVals rows) (List.ne_nil_of_mem hev)
  have hsome := (seriesMode_isSome strLt (routeVals rows)).mpr (List.ne_nil_of_mem hrv)
  rcases hrt : seriesMode strLt (routeVals rows) with _ | rt
  · rw [hrt] at hsome
    simp at hsome
  obtain ⟨hrt1, hrt2, hrt3⟩ := seriesMode_spec strLt_iff hrt
  exact ⟨s, e, rt, by rw [popularStartStation]; exact hs1,
    by rw [popularEndStation]; exact he1,
    by rw [popularRoute]; exact hrt,
    routeVals_mem rows, hs2, hs3, hs4, he2, he3, he4, hrt1, hrt2, hrt3⟩

/-- C3 witness: `tieRows` has a row with both stations non-null, and the
amended theorem applied to it yields the three reported values. -/
theorem station_stats_modes_witness :
    (∃ r ∈ tieRows, r.startStation ≠ none ∧ r.endStation ≠ none)
    ∧ ∃ s e rt, popularStartStation tieRows = some s
        ∧ popularEndStation tieRows = some e ∧ popularRoute tieRows = some rt :=
  ⟨by decide, by
    obtain ⟨s, e, rt, h1, h2, h3, _⟩ := station_stats_modes tieRows (by decide)
    exact ⟨s, e, rt, h1, h2, h3⟩⟩

/-- C4: the duration formatter takes the absolute value of the truncated
input and renders it as `<H>h <M>m <S>s` with `H = t / 3600`,
`M = (t % 3600) / 60` and `S = t % 60`, omitting no field even when it is
zero; in particular `3600 * 1 + 60 * 6 + 10` seconds formats as `1h 6m 10s`,
zero formats as `0h 0m 0s`, and every negated input formats identically to
the original. -/
theorem format_time_spec (q : ℚ) :
    format_time q = format_time |q|
    ∧ format_time q =
        toString ((Int.tdiv q.num (q.den : Int)).natAbs / 3600) ++ "h " ++
        toString (((Int.tdiv q.num (q.den : Int)).natAbs % 3600) / 60) ++ "m " ++
        toString ((Int.tdiv q.num (q.den : Int)).natAbs % 60) ++ "s"
    ∧ format_time (3600 * 1 + 60 * 6 + 10 : ℚ) = "1h 6m 10s"
    ∧ format_time 0 = "0h 0m 0s"
    ∧ (∀ r : ℚ, format_time (-r) = format_time r) := by
  have hneg : ∀ r : ℚ, format_time (-r) = format_time r := by
    intro r
    have h1 : ((-r).num.tdiv ((-r).den : Int)).natAbs =
        (r.num.tdiv ((r.den : Nat) : Int)).natAbs := by
      rw [Rat.neg_num, Rat.neg_den, Int.neg_tdiv, Int.natAbs_neg]
    simp only [format_time, h1]
  refine ⟨?_, rfl, ?_, ?_, hneg⟩
  · rcases le_or_lt 0 q with h | h
    · rw [abs_of_nonneg h]
    · rw [abs_of_neg h, hneg q]
  · have hnum : (3600 * 1 + 60 * 6 + 10 : ℚ).num = 3970 := by norm_num
    have hden : (3600 * 1 + 60 * 6 + 10 : ℚ).den = 1 := by norm_num
    simp only [format_time, hnum, hden]
    rfl
  · rfl

/-- C5: the filter-description formatter is a pure function of the
(city, month, day) triple, so two applications to the same triple are
byte-identical; its value is the string
`City: <Title> | Month: <Title-or-All> | Day: <Title-or-All>` where `"all"`
renders as `All` and any other value is title-cased, as the evaluation on
(`"new york"`, `"all"`, `"monday"`) illustrates. -/
theorem filter_description_deterministic (city month day : String) :
    get_filter_description city month day = filterDescriptionSpec city month day
    ∧ get_filter_description city month day = get_filter_description city month day
    ∧ get_filter_description "new york" "all" "monday" =
        "City: New York | Month: All | Day: Monday" := by
  refine ⟨?_, rfl, ?_⟩
  · apply String.ext
    simp only [get_filter_description, filterDescriptionSpec, String.data_append,
      List.append_assoc]
    rfl
  · decide

/-- C6: in a session iteration whose load fails, the loader returns no table,
so the report block is skipped entirely — the step sequence is exactly the
end-of-session message followed by the restart prompt, with no aggregator or
raw-data step in it — and every session iteration, failed or not, reaches the
restart prompt, so no load error is fatal. -/
theorem load_failure_skips_report (read : ReadOutcome) (month day : String)
    (h : ∀ rows, read ≠ ReadOutcome.success rows) :
    sessionSteps (load_data read month day) = [Step.endOfSession, Step.restartPrompt]
    ∧ (∀ s ∈ sessionSteps (load_data read month day),
        s ≠ Step.header ∧ s ≠ Step.rideStats ∧ s ≠ Step.stationStats ∧
        s ≠ Step.durationStats ∧ s ≠ Step.userStats ∧ s ≠ Step.rawData)
    ∧ (∀ df : Option (List Trip), Step.restartPrompt ∈ sessionSteps df) := by
  have hmain : load_data read month day = none := by
    cases read with
    | success rows => exact absurd rfl (h rows)
    | fileNotFound msg => rfl
    | otherError msg => rfl
  refine ⟨by rw [hmain]; rfl, ?_, ?_⟩
  · rw [hmain]
    decide
  · intro df
    cases df <;> simp [sessionSteps]

/-- C6 witness: loading with a missing source file yields no table and the
session goes straight to the restart prompt. -/
theorem load_failure_skips_report_witness :
    sessionSteps (load_data (ReadOutcome.fileNotFound "chicago.csv") "all" "all") =
        [Step.endOfSession, Step.restartPrompt]
    ∧ (∀ s ∈ sessionSteps (load_data (ReadOutcome.fileNotFound "chicago.csv") "all" "all"),
        s ≠ Step.header ∧ s ≠ Step.rideStats ∧ s ≠ Step.stationStats ∧
        s ≠ Step.durationStats ∧ s ≠ Step.userStats ∧ s ≠ Step.rawData)
    ∧ (∀ df : Option (List Trip), Step.restartPrompt ∈ sessionSteps df) :=
  load_failure_skips_report (ReadOutcome.fileNotFound "chicago.csv") "all" "all"
    (fun _ h => ReadOutcome.noConfusion h)

/-- C7 counterexample: a missing-file failure and an unparseable-data failure
produce the same return value `none`, so a caller of the loader cannot branch
on which failure occurred from the result — the loader does not return
distinguishable `NotFound` and `InvalidData` outcomes. -/
theorem load_failure_indistinct_cex :
    load_data (ReadOutcome.fileNotFound "chicago.csv") "all" "all" =
      load_data (ReadOutcome.otherError "unparseable record") "all" "all"
    ∧ load_data (ReadOutcome.fileNotFound "chicago.csv") "all" "all" = none
    ∧ load_data (ReadOutcome.otherError "unparseable record") "all" "all" = none :=
  ⟨rfl, rfl, rfl⟩

/-- C7 (amended): both failure paths of the loader return the same sentinel
absence `none` — the result is `none` exactly when the read was not a
success — so the caller can detect that loading failed but cannot tell a
missing file from any other read or parse failure; the two cases differ only
in the printed message. -/
theorem load_failure_sentinel (read : ReadOutcome) (month day : String) :
    (load_data read month day = none ↔ ∀ rows, read ≠ ReadOutcome.success rows)
    ∧ (∀ msg, load_data (ReadOutcome.fileNotFound msg) month day = none)
    ∧ (∀ msg, load_data (ReadOutcome.otherError msg) month day = none) := by
  refine ⟨?_, fun msg => rfl, fun msg => rfl⟩
  cases read with
  | success rows =>
    constructor
    · intro h
      simp [load_data] at h
    · intro h
      exact absurd rfl (h rows)
  | fileNotFound msg =>
    exact iff_of_true rfl (fun rows h => ReadOutcome.noConfusion h)
  | otherError msg =>
    exact iff_of_true rfl (fun rows h => ReadOutcome.noConfusion h)

/-- C8: the user-statistics aggregator replaces the gender breakdown with the
warning whose text is exactly
`Subscriber gender data missing/unavailable for your selection` (wrapped in
the colour prefix and a `* ` bullet) precisely when the gender column is
absent from the schema or the restriction to subscriber rows is empty; and a
table lacking the gender column changes nothing else — the user-type and
birth-year sections are computed as before, and all aggregators of the
session still run. -/
theorem user_stats_gender_warning (t : TripTable) (currentYear : Int) :
    (genderSection t = UserSection.warning genderWarningLine
      ↔ (t.hasGender = false ∨ subscriberRows t = []))
    ∧ genderWarningLine =
        (YELLOW ++ "* ") ++
          "Subscriber gender data missing/unavailable for your selection" ++ ENDC
    ∧ userTypesSection { t with hasGender := false } = userTypesSection t
    ∧ birthYearSection currentYear { t with hasGender := false } =
        birthYearSection currentYear t
    ∧ display_user_stats currentYear { t with hasGender := false } =
        [userTypesSection t, UserSection.warning genderWarningLine,
         birthYearSection currentYear t]
    ∧ sessionSteps (some t.rows) =
        [Step.header, Step.rideStats, Step.stationStats, Step.durationStats,
         Step.userStats, Step.rawData, Step.endOfSession, Step.restartPrompt] := by
  refine ⟨?_, by decide, rfl, rfl, rfl, rfl⟩
  by_cases hg : t.hasGender = true
  · by_cases hsub : subscriberRows t = []
    · refine iff_of_true ?_ (Or.inr hsub)
      simp only [genderSection, if_pos hg, hsub]
      rfl
    · refine iff_of_false ?_ ?_
      · have hne : (value_counts ((subscriberRows t).map (fun r => r.gender))).isEmpty
            = false := by
          have : (subscriberRows t).map (fun r => r.gender) ≠ [] := by
            intro hcon
            exact hsub (List.map_eq_nil_iff.mp hcon)
          have h2 : value_counts ((subscriberRows t).map (fun r => r.gender)) ≠ [] :=
            fun hcon => this ((value_counts_eq_nil _).mp hcon)
          simpa [List.isEmpty_iff] using h2
        simp only [genderSection, if_pos hg, hne]
        intro hcon
        simp at hcon
      · rintro (h1 | h2)
        · rw [hg] at h1
          cases h1
        · exact hsub h2
  · refine iff_of_true ?_ (Or.inl (by simpa using hg))
    simp only [genderSection, if_neg hg]

/-- C9: the raw-data paginator cuts the filtered table into pages of five
rows in table order — page `k` holds rows `5 k` up to `min (5 k + 5, n)`, the
pages concatenate back to the whole table, and every page is non-empty with
at most five rows; when the user keeps answering yes it shows every page, and
a no after the first page stops the pagination; the displayed columns are
exactly the table columns other than the derived `month`, `day_of_week` and
`hour`. -/
theorem raw_data_pagination (rows : List Trip) (cols : List String) (hne : rows ≠ []) :
    (chunks5 rows).flatten = rows
    ∧ (∀ k : Nat, (chunks5 rows).getD k [] = (rows.drop (5 * k)).take 5)
    ∧ (∀ page ∈ chunks5 rows, page ≠ [] ∧ page.length ≤ 5)
    ∧ paginate rows (List.replicate rows.length true) = chunks5 rows
    ∧ (∀ answers : List Bool, paginate rows (false :: answers) = [rows.take 5])
    ∧ (∀ c, c ∈ original_columns cols ↔
        (c ∈ cols ∧ c ≠ "month" ∧ c ≠ "day_of_week" ∧ c ≠ "hour")) := by
  refine ⟨chunks5_flatten rows, chunks5_getD rows, chunks5_pages rows,
    paginate_replicate_true rows rows.length (le_refl _), ?_, ?_⟩
  · intro answers
    rcases rows with _ | ⟨x, xs⟩
    · exact absurd rfl hne
    · exact paginate_false x xs answers
  · intro c
    simp [original_columns, List.mem_filter, and_assoc]

/-- C9 witness: the two-row table paginates into a single page that is the
table itself. -/
theorem raw_data_pagination_witness :
    (chunks5 tieRows).flatten = tieRows
    ∧ paginate tieRows (List.replicate tieRows.length true) = chunks5 tieRows :=
  ⟨(raw_data_pagination tieRows ["Start Time"] (by decide)).1,
   (raw_data_pagination tieRows ["Start Time"] (by decide)).2.2.2.1⟩

/-- C10: the ride, station and duration aggregators are defined only on
tables with data — each returns no result on the empty table, and each
succeeds exactly when its underlying series is non-empty: the hour extremes
need at least one row, the station and route modes need at least one non-null
value in their series, and the duration mean needs at least one row. -/
theorem empty_table_aggregators_fail (rows : List Trip)
    (hh : ∀ r ∈ rows, r.hour < 24) :
    display_ride_stats [] = none
    ∧ display_station_stats [] = none
    ∧ display_trip_duration_stats [] = none
    ∧ ((display_ride_stats rows).isSome = true ↔ rows ≠ [])
    ∧ ((display_trip_duration_stats rows).isSome = true ↔ rows ≠ [])
    ∧ ((popularStartStation rows).isSome = true ↔ startVals rows ≠ [])
    ∧ ((popularEndStation rows).isSome = true ↔ endVals rows ≠ [])
    ∧ ((popularRoute rows).isSome = true ↔ routeVals rows ≠ []) := by
  refine ⟨by decide, by decide, by decide, ?_, ?_,
    idxmaxFirst_isSome _ _, idxmaxFirst_isSome _ _, seriesMode_isSome _ _⟩
  · constructor
    · intro hsome hrow
      subst hrow
      rw [show display_ride_stats ([] : List Trip) = none from by decide] at hsome
      simp at hsome
    · intro hrows
      obtain ⟨b, q, hb, hq, _, _, _, _, _, _⟩ := ride_stats_core rows hrows hh
      simp only [display_ride_stats, hb, hq]
      rfl
  · by_cases hr : rows = []
    · subst hr
      simp [display_trip_duration_stats, durationsOf, meanDuration]
    · have hd : durationsOf rows ≠ [] := by
        intro hcon
        exact hr (List.map_eq_nil_iff.mp hcon)
      simp [display_trip_duration_stats, meanDuration, hd, hr]

/-- C10 witness: the one-row table is accepted by every aggregator. -/
theorem empty_table_aggregators_fail_witness :
    (∀ r ∈ oneRide, r.hour < 24)
    ∧ ((display_ride_stats oneRide).isSome = true ↔ oneRide ≠ [])
    ∧ ((popularRoute oneRide).isSome = true ↔ routeVals oneRide ≠ []) :=
  ⟨by decide, (empty_table_aggregators_fail oneRide (by decide)).2.2.2.1,
   (empty_table_aggregators_fail oneRide (by decide)).2.2.2.2.2.2.2⟩

end Bikeshare
